import Mathlib

/-!
Shallow embedding of the tiling, padding, batching and multi-pass
reconstruction pipeline of `src/common/waifu2x.cpp`, with theorems checking
the natural-language specification against it.

Conventions: images are planes of rational samples (the source uses 32-bit
floats normalized to the unit interval; the geometric and control-flow
claims checked here do not depend on rounding). A plane stores its extents
and a total pixel function; indices are (x, y) = (column, row). Machine
integers of the source are modelled as Nat, or as Int where the source
values can go negative (the context-window computation).
-/

namespace Waifu2x

/-- Source constant `offset` (waifu2x.cpp line 31): input image offset, zero. -/
def offset : ℕ := 0

/-- Source constant `layer_num` (line 33): number of layers of srcnn.prototxt. -/
def layer_num : ℕ := 7

/-- Member `inner_padding`, set to `layer_num` in `Waifu2x::init` (line 630). -/
def inner_padding : ℕ := layer_num

/-- Member `outer_padding`, set to 1 in `Waifu2x::init` (line 631). -/
def outer_padding : ℕ := 1

/-- Member `output_size = crop_size - offset * 2` (init, line 633). -/
def output_size (crop_size : ℕ) : ℕ := crop_size - offset * 2

/-- Member `input_block_size = crop_size + (inner_padding + outer_padding) * 2`
(init, line 634). -/
def input_block_size (crop_size : ℕ) : ℕ :=
  crop_size + (inner_padding + outer_padding) * 2

/-- Member `output_block_size = crop_size + (inner_padding + outer_padding - layer_num) * 2`
(init, line 637). -/
def output_block_size (crop_size : ℕ) : ℕ :=
  crop_size + (inner_padding + outer_padding - layer_num) * 2

/-- Local `output_padding = inner_padding + outer_padding - layer_num`
of `Waifu2x::ReconstructImage` (line 472). -/
def output_padding : ℕ := inner_padding + outer_padding - layer_num

/-- Result of the context-window computation for one tile: the clamped
rectangle (x, y, width, height) to copy out of the canvas and the four
replicate-padding amounts. All components are C ints in the source; `x` and
`y` are negative before clamping, so the model uses Int throughout. -/
structure CtxWin where
  x : ℤ
  y : ℤ
  width : ℤ
  height : ℤ
  top : ℤ
  bottom : ℤ
  left : ℤ
  right : ℤ
deriving DecidableEq, Repr

/-- Context-window computation of `Waifu2x::ReconstructImage` (lines 492-532)
for the tile whose core origin is (w, h), rendered in static single
assignment form: each mutation of the source becomes a new binding, and each
C `if` block becomes one conditional per variable it mutates. -/
def computeContextWindow (crop_size Width Height w h : ℕ) : CtxWin :=
  let x0 : ℤ := (w : ℤ) - (inner_padding : ℤ)
  let y0 : ℤ := (h : ℤ) - (inner_padding : ℤ)
  let width0 : ℤ := (crop_size : ℤ) + (inner_padding : ℤ) * 2
  let height0 : ℤ := (crop_size : ℤ) + (inner_padding : ℤ) * 2
  -- if (x < 0) { left += -x; width -= -x; x = 0; }
  let left1 : ℤ := if x0 < 0 then (outer_padding : ℤ) + -x0 else (outer_padding : ℤ)
  let width1 : ℤ := if x0 < 0 then width0 - -x0 else width0
  let x1 : ℤ := if x0 < 0 then 0 else x0
  -- if (x + width > Width) { right += (x + width) - Width; width = Width - x; }
  let right1 : ℤ :=
    if x1 + width1 > (Width : ℤ) then (outer_padding : ℤ) + (x1 + width1 - (Width : ℤ))
    else (outer_padding : ℤ)
  let width2 : ℤ := if x1 + width1 > (Width : ℤ) then (Width : ℤ) - x1 else width1
  -- if (y < 0) { top += -y; height -= -y; y = 0; }
  let top1 : ℤ := if y0 < 0 then (outer_padding : ℤ) + -y0 else (outer_padding : ℤ)
  let height1 : ℤ := if y0 < 0 then height0 - -y0 else height0
  let y1 : ℤ := if y0 < 0 then 0 else y0
  -- if (y + height > Height) { bottom += (y + height) - Height; height = Height - y; }
  let bottom1 : ℤ :=
    if y1 + height1 > (Height : ℤ) then (outer_padding : ℤ) + (y1 + height1 - (Height : ℤ))
    else (outer_padding : ℤ)
  let height2 : ℤ := if y1 + height1 > (Height : ℤ) then (Height : ℤ) - y1 else height1
  ⟨x1, y1, width2, height2, top1, bottom1, left1, right1⟩

/-- A single-channel image plane (a CV_32F `cv::Mat` of the source, with
rational samples). The pixel map is total; values outside the
width x height rectangle are irrelevant to every operation modelled here. -/
structure Plane where
  width : ℕ
  height : ℕ
  pix : ℕ → ℕ → ℚ

/-- Model of `cv::copyMakeBorder(src, dst, top, bottom, left, right,
cv::BORDER_REPLICATE)`: each border pixel replicates the nearest pixel of
the source rectangle. Truncated Nat subtraction clamps at the left/top edge
and `min` clamps at the right/bottom edge. -/
def copyMakeBorder (src : Plane) (top bottom left right : ℕ) : Plane where
  width := src.width + left + right
  height := src.height + top + bottom
  pix := fun x y => src.pix (min (x - left) (src.width - 1)) (min (y - top) (src.height - 1))

/-- Model of the submatrix view `src(cv::Rect(x, y, w, h))`. -/
def cropRect (src : Plane) (x y w h : ℕ) : Plane where
  width := w
  height := h
  pix := fun i j => src.pix (x + i) (y + j)

/-- `Waifu2x::PaddingImage` (lines 208-222): grows the canvas to a multiple
of `output_size` with the image at the top left and BORDER_REPLICATE
margins. The source mixes the names width and height (`h_blocks` counts
blocks along the width, the variable `height` is derived from the image
width, and so on); the computed amounts nevertheless land on the correct
sides of `copyMakeBorder`, whose arguments are (top, bottom, left, right):
`pad_w2` becomes the bottom border and `pad_h2` the right border. -/
def PaddingImage (output_size : ℕ) (input : Plane) : Plane :=
  let h_blocks := input.width / output_size + (if input.width % output_size = 0 then 0 else 1)
  let w_blocks := input.height / output_size + (if input.height % output_size = 0 then 0 else 1)
  let height := offset + h_blocks * output_size + offset
  let width := offset + w_blocks * output_size + offset
  let pad_h1 := offset
  let pad_w1 := offset
  let pad_h2 := (height - offset) - input.width
  let pad_w2 := (width - offset) - input.height
  copyMakeBorder input pad_w1 pad_w2 pad_h1 pad_h2

/-- Rounding helper: the block-count expression of `PaddingImage` scaled
back by the tile size yields the least multiple of `t` that is at least
`n`, for positive `n` and `t`. -/
lemma blocks_mul_round_up (n t : ℕ) (ht : 0 < t) :
    n ≤ (n / t + (if n % t = 0 then 0 else 1)) * t ∧
    (n / t + (if n % t = 0 then 0 else 1)) * t < n + t ∧
    (n / t + (if n % t = 0 then 0 else 1)) * t % t = 0 := by
  have hdm : n / t * t + n % t = n := Nat.div_add_mod' n t
  have hmlt : n % t < t := Nat.mod_lt n ht
  have hmul : n / t * t % t = 0 := Nat.mul_mod_left _ _
  by_cases h : n % t = 0
  · rw [if_pos h, Nat.add_zero]
    exact ⟨by omega, by omega, hmul⟩
  · rw [if_neg h, Nat.add_mul, Nat.one_mul]
    refine ⟨by omega, by omega, ?_⟩
    rw [Nat.add_mod, hmul, Nat.mod_self]
    simp

/-- Width of the padded canvas, in closed form. -/
lemma PaddingImage_width (t : ℕ) (p : Plane) (ht : 0 < t) :
    (PaddingImage t p).width = (p.width / t + (if p.width % t = 0 then 0 else 1)) * t := by
  obtain ⟨h1, _, _⟩ := blocks_mul_round_up p.width t ht
  simp only [PaddingImage, copyMakeBorder, offset]
  omega

/-- Height of the padded canvas, in closed form. -/
lemma PaddingImage_height (t : ℕ) (p : Plane) (ht : 0 < t) :
    (PaddingImage t p).height = (p.height / t + (if p.height % t = 0 then 0 else 1)) * t := by
  obtain ⟨h1, _, _⟩ := blocks_mul_round_up p.height t ht
  simp only [PaddingImage, copyMakeBorder, offset]
  omega

/-- C8: for every plane with positive extents and every positive tile size,
`PaddingImage` rounds the width and the height up to the next multiple of
the tile size, adds its replicate borders only on the bottom and the right
(top-left alignment), and cropping the padded plane back to the original
rectangle at the origin restores every original pixel unchanged. -/
theorem padding_roundtrip (t : ℕ) (p : Plane) (ht : 0 < t) (hw : 0 < p.width)
    (hh : 0 < p.height) :
    ((PaddingImage t p).width % t = 0 ∧ p.width ≤ (PaddingImage t p).width ∧
      (PaddingImage t p).width < p.width + t) ∧
    ((PaddingImage t p).height % t = 0 ∧ p.height ≤ (PaddingImage t p).height ∧
      (PaddingImage t p).height < p.height + t) ∧
    (∀ i j, i < p.width → j < p.height →
      (cropRect (PaddingImage t p) 0 0 p.width p.height).pix i j = p.pix i j) := by
  obtain ⟨hw1, hw2, hw3⟩ := blocks_mul_round_up p.width t ht
  obtain ⟨hh1, hh2, hh3⟩ := blocks_mul_round_up p.height t ht
  refine ⟨?_, ?_, ?_⟩
  · rw [PaddingImage_width t p ht]; exact ⟨hw3, hw1, hw2⟩
  · rw [PaddingImage_height t p ht]; exact ⟨hh3, hh1, hh2⟩
  · intro i j hi hj
    simp only [cropRect, PaddingImage, copyMakeBorder, offset, Nat.zero_add, Nat.add_zero,
      Nat.sub_zero]
    congr 1 <;> omega

/-- Witness for `padding_roundtrip` at a concrete plane and tile size. -/
theorem padding_roundtrip_witness :
    0 < 4 ∧ 0 < (Plane.mk 10 6 fun i j => (i + j : ℚ)).width ∧
      0 < (Plane.mk 10 6 fun i j => (i + j : ℚ)).height ∧
    (((PaddingImage 4 (Plane.mk 10 6 fun i j => (i + j : ℚ))).width % 4 = 0 ∧
      (Plane.mk 10 6 fun i j => (i + j : ℚ)).width ≤
        (PaddingImage 4 (Plane.mk 10 6 fun i j => (i + j : ℚ))).width ∧
      (PaddingImage 4 (Plane.mk 10 6 fun i j => (i + j : ℚ))).width <
        (Plane.mk 10 6 fun i j => (i + j : ℚ)).width + 4) ∧
    ((PaddingImage 4 (Plane.mk 10 6 fun i j => (i + j : ℚ))).height % 4 = 0 ∧
      (Plane.mk 10 6 fun i j => (i + j : ℚ)).height ≤
        (PaddingImage 4 (Plane.mk 10 6 fun i j => (i + j : ℚ))).height ∧
      (PaddingImage 4 (Plane.mk 10 6 fun i j => (i + j : ℚ))).height <
        (Plane.mk 10 6 fun i j => (i + j : ℚ)).height + 4) ∧
    (∀ i j, i < (Plane.mk 10 6 fun i j => (i + j : ℚ)).width →
      j < (Plane.mk 10 6 fun i j => (i + j : ℚ)).height →
      (cropRect (PaddingImage 4 (Plane.mk 10 6 fun i j => (i + j : ℚ))) 0 0
        (Plane.mk 10 6 fun i j => (i + j : ℚ)).width
        (Plane.mk 10 6 fun i j => (i + j : ℚ)).height).pix i j =
        (Plane.mk 10 6 fun i j => (i + j : ℚ)).pix i j)) :=
  ⟨by decide, by decide, by decide,
    padding_roundtrip 4 (Plane.mk 10 6 fun i j => (i + j : ℚ)) (by decide) (by decide) (by decide)⟩

/-- A tile-sized pixel map: the serialized form of one input or output tile
as seen by the inference engine. -/
def TileFn : Type := ℕ → ℕ → ℚ

/-- Serialized input tile of block (wn, hn): the context rectangle copied
out of the canvas (lines 534-538) and replicate-padded to
input_block_size x input_block_size (lines 540-542). The guard at line 490
(`w + crop_size <= Width && h + crop_size <= Height`) always holds under
the asserts of `ReconstructImage` (canvas extents are multiples of
`output_size`, lines 440-441); see `tile_guard_holds`. -/
def extractTilePlane (crop_size : ℕ) (im : Plane) (wn hn : ℕ) : Plane :=
  let cw := computeContextWindow crop_size im.width im.height
    (wn * output_size crop_size) (hn * output_size crop_size)
  copyMakeBorder (cropRect im cw.x.toNat cw.y.toNat cw.width.toNat cw.height.toNat)
    cw.top.toNat cw.bottom.toNat cw.left.toNat cw.right.toNat

/-- All clamp invariants of the context-window computation for a tile of a
padded canvas, proved by exhausting the four clamp conditions. -/
lemma computeContextWindow_spec (crop_size WidthNum HeightNum wn hn : ℕ)
    (cw : CtxWin) (hcrop : 0 < crop_size) (hwn : wn < WidthNum) (hhn : hn < HeightNum)
    (hcw : cw = computeContextWindow crop_size (WidthNum * output_size crop_size)
      (HeightNum * output_size crop_size) (wn * output_size crop_size)
      (hn * output_size crop_size)) :
    (0 ≤ cw.x ∧ 0 < cw.width ∧ cw.x + cw.width ≤ (WidthNum * output_size crop_size : ℕ)) ∧
    (0 ≤ cw.y ∧ 0 < cw.height ∧ cw.y + cw.height ≤ (HeightNum * output_size crop_size : ℕ)) ∧
    (0 ≤ cw.left ∧ 0 ≤ cw.right ∧ 0 ≤ cw.top ∧ 0 ≤ cw.bottom) ∧
    cw.left + cw.width + cw.right = (input_block_size crop_size : ℕ) ∧
    cw.top + cw.height + cw.bottom = (input_block_size crop_size : ℕ) := by
  have hos : output_size crop_size = crop_size := by simp [output_size, offset]
  rw [hos] at hcw
  have hW : wn * crop_size + crop_size ≤ WidthNum * crop_size := by
    calc wn * crop_size + crop_size = (wn + 1) * crop_size := by ring
    _ ≤ WidthNum * crop_size := Nat.mul_le_mul_right _ hwn
  have hH : hn * crop_size + crop_size ≤ HeightNum * crop_size := by
    calc hn * crop_size + crop_size = (hn + 1) * crop_size := by ring
    _ ≤ HeightNum * crop_size := Nat.mul_le_mul_right _ hhn
  subst hcw
  rw [hos]
  simp only [computeContextWindow, input_block_size, inner_padding, outer_padding, layer_num]
  split_ifs <;> simp_all <;> omega

/-- C1: for every tile of a padded canvas (canvas extents multiples of
`output_size`), the context window computed before extraction has its
clamped rectangle entirely inside the canvas, on each axis the clamped
extent plus the two replicate-padding amounts of that axis equals
`input_block_size` exactly, and therefore the extracted-and-padded tile is
exactly input_block_size x input_block_size. -/
theorem contextWindow_clamped_and_exact (crop_size WidthNum HeightNum wn hn : ℕ)
    (cw : CtxWin) (im : Plane) (hcrop : 0 < crop_size) (hwn : wn < WidthNum)
    (hhn : hn < HeightNum)
    (him_w : im.width = WidthNum * output_size crop_size)
    (him_h : im.height = HeightNum * output_size crop_size)
    (hcw : cw = computeContextWindow crop_size im.width im.height
      (wn * output_size crop_size) (hn * output_size crop_size)) :
    (0 ≤ cw.x ∧ 0 < cw.width ∧ cw.x + cw.width ≤ (im.width : ℤ)) ∧
    (0 ≤ cw.y ∧ 0 < cw.height ∧ cw.y + cw.height ≤ (im.height : ℤ)) ∧
    (cw.left + cw.width + cw.right = (input_block_size crop_size : ℕ) ∧
      cw.top + cw.height + cw.bottom = (input_block_size crop_size : ℕ)) ∧
    ((extractTilePlane crop_size im wn hn).width = input_block_size crop_size ∧
      (extractTilePlane crop_size im wn hn).height = input_block_size crop_size) := by
  rw [him_w, him_h] at hcw
  obtain ⟨⟨h1, h2, h3⟩, ⟨h4, h5, h6⟩, ⟨h7, h8, h9, h10⟩, h11, h12⟩ :=
    computeContextWindow_spec crop_size WidthNum HeightNum wn hn cw hcrop hwn hhn hcw
  refine ⟨⟨h1, h2, by rw [him_w]; exact h3⟩, ⟨h4, h5, by rw [him_h]; exact h6⟩,
    ⟨h11, h12⟩, ?_⟩
  simp only [extractTilePlane, copyMakeBorder, cropRect, him_w, him_h, ← hcw]
  constructor <;> omega

/-- Witness for `contextWindow_clamped_and_exact` at the top-left corner
tile of a 2 x 2 tiling with crop size 4 on a concrete canvas. -/
theorem contextWindow_clamped_and_exact_witness :
    0 < 4 ∧ 0 < 2 ∧
    (Plane.mk (2 * output_size 4) (2 * output_size 4) fun _ _ => 0).width
      = 2 * output_size 4 ∧
    (extractTilePlane 4 (Plane.mk (2 * output_size 4) (2 * output_size 4) fun _ _ => 0)
      0 0).width = input_block_size 4 :=
  ⟨by decide, by decide, by decide,
    (contextWindow_clamped_and_exact 4 2 2 0 0 _
      (Plane.mk (2 * output_size 4) (2 * output_size 4) fun _ _ => 0)
      (by decide) (by decide) (by decide) (by decide) (by decide) rfl).2.2.2.1⟩

/-- Write region of tile `n` in the stitching loop of
`Waifu2x::ReconstructImage` (lines 582-595): the crop_size x crop_size
square of canvas pixels with origin
(w, h) = ((n % WidthNum) * output_size, (n / WidthNum) * output_size). -/
def inWriteRegion (crop_size WidthNum n px py : ℕ) : Prop :=
  (n % WidthNum) * output_size crop_size ≤ px ∧
  px < (n % WidthNum) * output_size crop_size + crop_size ∧
  (n / WidthNum) * output_size crop_size ≤ py ∧
  py < (n / WidthNum) * output_size crop_size + crop_size

instance (crop_size WidthNum n px py : ℕ) :
    Decidable (inWriteRegion crop_size WidthNum n px py) := by
  unfold inWriteRegion; infer_instance

/-- Index of the unique tile whose write region contains the canvas pixel
(px, py). -/
def tileIndexAt (crop_size WidthNum px py : ℕ) : ℕ :=
  (py / crop_size) * WidthNum + px / crop_size

/-- Characterization of write-region membership for a canvas pixel: among
all tile indices, exactly the index `tileIndexAt` matches. -/
lemma inWriteRegion_iff (crop_size WidthNum HeightNum n px py : ℕ) (hcrop : 0 < crop_size)
    (hx : px < WidthNum * crop_size) (hy : py < HeightNum * crop_size) :
    inWriteRegion crop_size WidthNum n px py ↔ n = tileIndexAt crop_size WidthNum px py := by
  have hos : output_size crop_size = crop_size := by simp [output_size, offset]
  have hWpos : 0 < WidthNum := by
    rcases Nat.eq_zero_or_pos WidthNum with h | h
    · subst h; simp at hx
    · exact h
  have hbx : px / crop_size < WidthNum := by
    rw [Nat.div_lt_iff_lt_mul hcrop]; omega
  have hby : py / crop_size < HeightNum := by
    rw [Nat.div_lt_iff_lt_mul hcrop]; omega
  unfold inWriteRegion tileIndexAt
  rw [hos]
  constructor
  · rintro ⟨h1, h2, h3, h4⟩
    have hex : px / crop_size = n % WidthNum := by
      apply Nat.div_eq_of_lt_le
      · exact h1
      · rw [Nat.add_mul, Nat.one_mul]; omega
    have hey : py / crop_size = n / WidthNum := by
      apply Nat.div_eq_of_lt_le
      · exact h3
      · rw [Nat.add_mul, Nat.one_mul]; omega
    have hn2 : n / WidthNum * WidthNum + n % WidthNum = n := Nat.div_add_mod' n WidthNum
    rw [hex, hey]
    omega
  · intro hn
    subst hn
    have hmod : ((py / crop_size) * WidthNum + px / crop_size) % WidthNum = px / crop_size := by
      rw [Nat.mul_comm (py / crop_size) WidthNum, Nat.mul_add_mod]
      exact Nat.mod_eq_of_lt hbx
    have hdiv : ((py / crop_size) * WidthNum + px / crop_size) / WidthNum = py / crop_size := by
      rw [Nat.mul_comm (py / crop_size) WidthNum, Nat.mul_add_div hWpos]
      rw [Nat.div_eq_of_lt hbx, Nat.add_zero]
    rw [hmod, hdiv]
    have e1 : px / crop_size * crop_size + px % crop_size = px := Nat.div_add_mod' px crop_size
    have e2 : py / crop_size * crop_size + py % crop_size = py := Nat.div_add_mod' py crop_size
    have m1 : px % crop_size < crop_size := Nat.mod_lt px hcrop
    have m2 : py % crop_size < crop_size := Nat.mod_lt py hcrop
    omega

/-- A write region of a valid tile index lies inside the canvas. -/
lemma inWriteRegion_inside (crop_size WidthNum HeightNum n px py : ℕ)
    (hn : n < WidthNum * HeightNum) (hr : inWriteRegion crop_size WidthNum n px py) :
    px < WidthNum * crop_size ∧ py < HeightNum * crop_size := by
  have hos : output_size crop_size = crop_size := by simp [output_size, offset]
  have hWpos : 0 < WidthNum := by
    rcases Nat.eq_zero_or_pos WidthNum with h | h
    · subst h; simp at hn
    · exact h
  have hm : n % WidthNum < WidthNum := Nat.mod_lt n hWpos
  have hd : n / WidthNum < HeightNum := by
    rw [Nat.div_lt_iff_lt_mul hWpos, Nat.mul_comm HeightNum WidthNum]; omega
  obtain ⟨h1, h2, h3, h4⟩ := hr
  rw [hos] at h2 h4
  constructor
  · calc px < (n % WidthNum) * crop_size + crop_size := h2
    _ = (n % WidthNum + 1) * crop_size := by ring
    _ ≤ WidthNum * crop_size := Nat.mul_le_mul_right _ hm
  · calc py < (n / WidthNum) * crop_size + crop_size := h4
    _ = (n / WidthNum + 1) * crop_size := by ring
    _ ≤ HeightNum * crop_size := Nat.mul_le_mul_right _ hd

/-- The canonical tile index of a canvas pixel is a valid index. -/
lemma tileIndexAt_lt (crop_size WidthNum HeightNum px py : ℕ) (hcrop : 0 < crop_size)
    (hx : px < WidthNum * crop_size) (hy : py < HeightNum * crop_size) :
    tileIndexAt crop_size WidthNum px py < WidthNum * HeightNum := by
  have hbx : px / crop_size < WidthNum := by
    rw [Nat.div_lt_iff_lt_mul hcrop]; omega
  have hby : py / crop_size < HeightNum := by
    rw [Nat.div_lt_iff_lt_mul hcrop]; omega
  unfold tileIndexAt
  calc (py / crop_size) * WidthNum + px / crop_size
      < (py / crop_size) * WidthNum + WidthNum := by omega
  _ = (py / crop_size + 1) * WidthNum := by ring
  _ ≤ HeightNum * WidthNum := Nat.mul_le_mul_right _ hby
  _ = WidthNum * HeightNum := Nat.mul_comm _ _

/-- C2: for a padded canvas of `WidthNum * HeightNum` tiles, the
crop_size x crop_size write regions used by the reconstruction loop
partition the canvas: every canvas pixel lies in the region of exactly one
valid tile index, every valid region stays inside the canvas, and the
regions of two distinct valid tile indices never overlap. -/
theorem tile_partition_exact_cover (crop_size WidthNum HeightNum : ℕ) (hcrop : 0 < crop_size) :
    (∀ px py, px < WidthNum * output_size crop_size → py < HeightNum * output_size crop_size →
      ∃! n, n < WidthNum * HeightNum ∧ inWriteRegion crop_size WidthNum n px py) ∧
    (∀ n px py, n < WidthNum * HeightNum → inWriteRegion crop_size WidthNum n px py →
      px < WidthNum * output_size crop_size ∧ py < HeightNum * output_size crop_size) ∧
    (∀ m n px py, m < WidthNum * HeightNum → n < WidthNum * HeightNum → m ≠ n →
      ¬(inWriteRegion crop_size WidthNum m px py ∧ inWriteRegion crop_size WidthNum n px py)) := by
  have hos : output_size crop_size = crop_size := by simp [output_size, offset]
  rw [hos]
  refine ⟨?_, ?_, ?_⟩
  · intro px py hx hy
    refine ⟨tileIndexAt crop_size WidthNum px py,
      ⟨tileIndexAt_lt crop_size WidthNum HeightNum px py hcrop hx hy, ?_⟩, ?_⟩
    · exact (inWriteRegion_iff crop_size WidthNum HeightNum _ px py hcrop hx hy).mpr rfl
    · rintro n ⟨-, hr⟩
      exact (inWriteRegion_iff crop_size WidthNum HeightNum n px py hcrop hx hy).mp hr
  · intro n px py hn hr
    exact inWriteRegion_inside crop_size WidthNum HeightNum n px py hn hr
  · rintro m n px py hm hn hmn ⟨hrm, hrn⟩
    obtain ⟨hx, hy⟩ := inWriteRegion_inside crop_size WidthNum HeightNum m px py hm hrm
    have em := (inWriteRegion_iff crop_size WidthNum HeightNum m px py hcrop hx hy).mp hrm
    have en := (inWriteRegion_iff crop_size WidthNum HeightNum n px py hcrop hx hy).mp hrn
    exact hmn (em.trans en.symm)

/-- Witness for `tile_partition_exact_cover`: with crop size 4 and a
3 x 2 tiling, the canvas pixel (5, 7) lies in the write region of exactly
one tile. -/
theorem tile_partition_exact_cover_witness :
    0 < 4 ∧ (5 < 3 * output_size 4 ∧ 7 < 2 * output_size 4) ∧
    (∃! n, n < 3 * 2 ∧ inWriteRegion 4 3 n 5 7) :=
  ⟨by decide, ⟨by decide, by decide⟩,
    (tile_partition_exact_cover 4 3 2 (by decide)).1 5 7 (by decide) (by decide)⟩

/-- The guard at line 490 holds for every tile index of the partition when
the canvas extents are multiples of `output_size`. -/
lemma tile_guard_holds (crop_size WidthNum HeightNum n : ℕ) (hn : n < WidthNum * HeightNum) :
    (n % WidthNum) * output_size crop_size + crop_size ≤ WidthNum * output_size crop_size ∧
    (n / WidthNum) * output_size crop_size + crop_size ≤ HeightNum * output_size crop_size := by
  have hos : output_size crop_size = crop_size := by simp [output_size, offset]
  have hWpos : 0 < WidthNum := by
    rcases Nat.eq_zero_or_pos WidthNum with h | h
    · subst h; simp at hn
    · exact h
  have hm : n % WidthNum < WidthNum := Nat.mod_lt n hWpos
  have hd : n / WidthNum < HeightNum := by
    rw [Nat.div_lt_iff_lt_mul hWpos, Nat.mul_comm HeightNum WidthNum]; omega
  rw [hos]
  constructor
  · calc (n % WidthNum) * crop_size + crop_size = (n % WidthNum + 1) * crop_size := by ring
    _ ≤ WidthNum * crop_size := Nat.mul_le_mul_right _ hm
  · calc (n / WidthNum) * crop_size + crop_size = (n / WidthNum + 1) * crop_size := by ring
    _ ≤ HeightNum * crop_size := Nat.mul_le_mul_right _ hd

/-- Stitching of one result tile into the output buffer (lines 590-594):
row `i` of the crop_size x crop_size core of the result tile, skipping
`output_padding` border pixels on each side, overwrites the buffer at
origin (w, h); all other buffer pixels keep their previous value. -/
def stitchTile (crop_size : ℕ) (buf : ℕ → ℕ → ℚ) (w h : ℕ) (outT : TileFn) : ℕ → ℕ → ℚ :=
  fun px py =>
    if w ≤ px ∧ px < w + crop_size ∧ h ≤ py ∧ py < h + crop_size then
      outT (output_padding + (px - w)) ((py - h) + output_padding)
    else buf px py

/-- The tile loop of `ReconstructImage`, generalized over the order in
which tiles are processed: each tile index is extracted from the input
canvas `im`, run through the engine and stitched into the buffer. The
source processes the indices `List.range BlockNum`, grouped into batches;
grouping does not change which extraction and stitch operations happen or
their order. -/
def stitchAll (crop_size WidthNum : ℕ) (engine : TileFn → TileFn) (im : Plane) :
    List ℕ → (ℕ → ℕ → ℚ) → (ℕ → ℕ → ℚ)
  | [], buf => buf
  | n :: rest, buf =>
      stitchAll crop_size WidthNum engine im rest
        (stitchTile crop_size buf ((n % WidthNum) * output_size crop_size)
          ((n / WidthNum) * output_size crop_size)
          (engine (extractTilePlane crop_size im (n % WidthNum) (n / WidthNum)).pix))

/-- Number of engine invocations of the batch loop
`for (num = 0; num < BlockNum; num += batch_size)` (line 475). -/
def numBatches (BlockNum batch_size : ℕ) : ℕ := (BlockNum + batch_size - 1) / batch_size

/-- Error codes of `Waifu2x::eWaifu2xError` (waifu2x.h). -/
inductive EWaifu2xError where
  | OK
  | Cancel
  | NotInitialized
  | InvalidParameter
  | FailedOpenInputFile
  | FailedOpenOutputFile
  | FailedOpenModelFile
  | FailedParseModelFile
  | FailedConstructModel
  | FailedProcessCaffe
deriving DecidableEq, Repr

/-- `Waifu2x::ReconstructImage` (lines 434-606). The canvas is passed by
reference in the source; the model returns the pair of the error code and
the canvas after the call. Reconstructed tiles are stitched into the
separate buffer `outim` (lines 445-448), and `im = outim` (line 603) runs
only after every batch succeeded; an engine failure in batch `k` (modelled
by `fails k = true`) is caught at line 598 and returns FailedProcessCaffe
with the canvas untouched. `outim` is allocated uninitialized; the model
starts it at zero, and no canvas pixel of a successful result depends on
that choice (see `reconstruct_reads_original_order_independent`). -/
def ReconstructImage (crop_size batch_size : ℕ) (engine : TileFn → TileFn)
    (fails : ℕ → Bool) (im : Plane) : EWaifu2xError × Plane :=
  let WidthNum := im.width / output_size crop_size
  let HeightNum := im.height / output_size crop_size
  let BlockNum := WidthNum * HeightNum
  if (List.range (numBatches BlockNum batch_size)).any fails then
    (.FailedProcessCaffe, im)
  else
    (.OK, ⟨im.width, im.height,
      stitchAll crop_size WidthNum engine im (List.range BlockNum) (fun _ _ => 0)⟩)

/-- A stitch outside its write region leaves the buffer pixel unchanged. -/
lemma stitchTile_preserved (crop_size : ℕ) (buf : ℕ → ℕ → ℚ) (w h : ℕ) (outT : TileFn)
    (px py : ℕ) (hout : ¬(w ≤ px ∧ px < w + crop_size ∧ h ≤ py ∧ py < h + crop_size)) :
    stitchTile crop_size buf w h outT px py = buf px py := by
  unfold stitchTile
  rw [if_neg hout]

/-- A pixel in no write region of the processed tiles keeps its initial
buffer value. -/
lemma stitchAll_preserved (crop_size WidthNum : ℕ) (engine : TileFn → TileFn) (im : Plane)
    (order : List ℕ) (init : ℕ → ℕ → ℚ) (px py : ℕ)
    (h : ∀ n ∈ order, ¬ inWriteRegion crop_size WidthNum n px py) :
    stitchAll crop_size WidthNum engine im order init px py = init px py := by
  induction order generalizing init with
  | nil => rfl
  | cons m rest ih =>
    rw [stitchAll]
    rw [ih _ fun n hn => h n (List.mem_cons_of_mem _ hn)]
    apply stitchTile_preserved
    have := h m (List.mem_cons_self m rest)
    unfold inWriteRegion at this
    exact this

/-- A pixel covered by exactly the write region of tile `k` among the
processed tiles receives the engine output for tile `k`, whatever the
initial buffer contents and wherever `k` sits in the processing order. -/
lemma stitchAll_covered (crop_size WidthNum : ℕ) (engine : TileFn → TileFn) (im : Plane)
    (order : List ℕ) (init : ℕ → ℕ → ℚ) (px py k : ℕ)
    (hk : k ∈ order) (hnd : order.Nodup)
    (hin : inWriteRegion crop_size WidthNum k px py)
    (hother : ∀ n ∈ order, n ≠ k → ¬ inWriteRegion crop_size WidthNum n px py) :
    stitchAll crop_size WidthNum engine im order init px py =
      engine (extractTilePlane crop_size im (k % WidthNum) (k / WidthNum)).pix
        (output_padding + (px - (k % WidthNum) * output_size crop_size))
        ((py - (k / WidthNum) * output_size crop_size) + output_padding) := by
  induction order generalizing init with
  | nil => cases hk
  | cons m rest ih =>
    rcases List.mem_cons.mp hk with rfl | hk2
    · rw [stitchAll]
      have hrest : ∀ n ∈ rest, ¬ inWriteRegion crop_size WidthNum n px py := by
        intro n hn
        by_cases hnk : n = k
        · subst hnk; exact absurd hn (List.nodup_cons.mp hnd).1
        · exact hother n (List.mem_cons_of_mem _ hn) hnk
      rw [stitchAll_preserved _ _ _ _ _ _ _ _ hrest]
      unfold inWriteRegion at hin
      unfold stitchTile
      rw [if_pos hin]
    · have hmk : m ≠ k := by
        intro h
        subst h
        exact absurd hk2 (List.nodup_cons.mp hnd).1
      rw [stitchAll]
      exact ih _ hk2 (List.nodup_cons.mp hnd).2
        (fun n hn hnk => hother n (List.mem_cons_of_mem _ hn) hnk)

/-- Decomposition of `tileIndexAt` back into tile coordinates. -/
lemma tileIndexAt_mod_div (crop_size WidthNum px py : ℕ) (hWpos : 0 < WidthNum)
    (hbx : px / crop_size < WidthNum) :
    tileIndexAt crop_size WidthNum px py % WidthNum = px / crop_size ∧
    tileIndexAt crop_size WidthNum px py / WidthNum = py / crop_size := by
  unfold tileIndexAt
  constructor
  · rw [Nat.mul_comm (py / crop_size) WidthNum, Nat.mul_add_mod]
    exact Nat.mod_eq_of_lt hbx
  · rw [Nat.mul_comm (py / crop_size) WidthNum, Nat.mul_add_div hWpos,
      Nat.div_eq_of_lt hbx, Nat.add_zero]

/-- C9: during a reconstruction pass the input canvas is only read. Every
canvas pixel of the stitched buffer equals the engine output for the
unique tile covering that pixel, extracted from the original canvas `im` -
whatever the order in which the tiles are processed and whatever the
initial contents of the output buffer; consequently a `ReconstructImage`
call whose batches all succeed returns exactly that buffer as the new
canvas, so the result is independent of the tile processing order. -/
theorem reconstruct_reads_original_order_independent
    (crop_size batch_size WidthNum HeightNum : ℕ) (hcrop : 0 < crop_size)
    (engine : TileFn → TileFn) (im : Plane)
    (hw : im.width = WidthNum * output_size crop_size)
    (hh : im.height = HeightNum * output_size crop_size)
    (px py : ℕ) (hx : px < im.width) (hy : py < im.height) :
    (∀ (order : List ℕ) (init : ℕ → ℕ → ℚ), order.Nodup →
      (∀ n ∈ order, n < WidthNum * HeightNum) →
      tileIndexAt crop_size WidthNum px py ∈ order →
      stitchAll crop_size WidthNum engine im order init px py =
        engine (extractTilePlane crop_size im (px / crop_size) (py / crop_size)).pix
          (output_padding + px % crop_size) (py % crop_size + output_padding)) ∧
    (∀ fails : ℕ → Bool,
      (List.range (numBatches (WidthNum * HeightNum) batch_size)).any fails = false →
      (ReconstructImage crop_size batch_size engine fails im).1 = .OK ∧
      (ReconstructImage crop_size batch_size engine fails im).2.pix px py =
        engine (extractTilePlane crop_size im (px / crop_size) (py / crop_size)).pix
          (output_padding + px % crop_size) (py % crop_size + output_padding)) := by
  have hos : output_size crop_size = crop_size := by simp [output_size, offset]
  rw [hos] at hw hh
  have hxc : px < WidthNum * crop_size := hw ▸ hx
  have hyc : py < HeightNum * crop_size := hh ▸ hy
  have hWpos : 0 < WidthNum := by
    rcases Nat.eq_zero_or_pos WidthNum with h0 | h0
    · subst h0; simp at hxc
    · exact h0
  have hbx : px / crop_size < WidthNum := by
    rw [Nat.div_lt_iff_lt_mul hcrop]; omega
  obtain ⟨hmodk, hdivk⟩ := tileIndexAt_mod_div crop_size WidthNum px py hWpos hbx
  have e1 : px - px / crop_size * crop_size = px % crop_size := by
    have := Nat.div_add_mod' px crop_size; omega
  have e2 : py - py / crop_size * crop_size = py % crop_size := by
    have := Nat.div_add_mod' py crop_size; omega
  have hmain : ∀ (order : List ℕ) (init : ℕ → ℕ → ℚ), order.Nodup →
      (∀ n ∈ order, n < WidthNum * HeightNum) →
      tileIndexAt crop_size WidthNum px py ∈ order →
      stitchAll crop_size WidthNum engine im order init px py =
        engine (extractTilePlane crop_size im (px / crop_size) (py / crop_size)).pix
          (output_padding + px % crop_size) (py % crop_size + output_padding) := by
    intro order init hnd hbound hkmem
    rw [stitchAll_covered crop_size WidthNum engine im order init px py
      (tileIndexAt crop_size WidthNum px py) hkmem hnd
      ((inWriteRegion_iff crop_size WidthNum HeightNum _ px py hcrop hxc hyc).mpr rfl)
      (fun n hn hnk hr =>
        hnk ((inWriteRegion_iff crop_size WidthNum HeightNum n px py hcrop hxc hyc).mp hr))]
    rw [hmodk, hdivk, hos, e1, e2]
  refine ⟨hmain, ?_⟩
  intro fails hfails
  have hWeq : im.width / output_size crop_size = WidthNum := by
    rw [hos, hw]; exact Nat.mul_div_cancel _ hcrop
  have hHeq : im.height / output_size crop_size = HeightNum := by
    rw [hos, hh]; exact Nat.mul_div_cancel _ hcrop
  simp only [ReconstructImage, hWeq, hHeq, hfails, Bool.false_eq_true, if_false]
  refine ⟨trivial, ?_⟩
  exact hmain (List.range (WidthNum * HeightNum)) (fun _ _ => 0) (List.nodup_range _)
    (fun n hn => List.mem_range.mp hn)
    (List.mem_range.mpr (tileIndexAt_lt crop_size WidthNum HeightNum px py hcrop hxc hyc))

/-- Witness for `reconstruct_reads_original_order_independent` on a
1 x 1 canvas with the identity engine. -/
theorem reconstruct_reads_original_witness :
    0 < 1 ∧
    (Plane.mk 1 1 fun _ _ => 37).width = 1 * output_size 1 ∧
    (List.range (numBatches (1 * 1) 1)).any (fun _ => false) = false ∧
    (ReconstructImage 1 1 (fun t => t) (fun _ => false) (Plane.mk 1 1 fun _ _ => 37)).1 = .OK :=
  ⟨by decide, by decide, by decide,
    ((reconstruct_reads_original_order_independent 1 1 1 1 (by decide) (fun t => t)
      (Plane.mk 1 1 fun _ _ => 37) (by decide) (by decide) 0 0 (by decide) (by decide)).2
      (fun _ => false) (by decide)).1⟩

/-- Case-insensitive comparison of the input file extension against
".jpg" / ".jpeg" (line 789, via `boost::iequals`), folding ASCII upper
case to lower case character by character. -/
def isJpegExt (ext : String) : Bool :=
  let lower := ext.data.map Char.toLower
  lower == ".jpg".data || lower == ".jpeg".data

/-- `isReconstructNoise` (line 791): the denoise pass runs for the modes
"noise" and "noise_scale", and for "auto_scale" exactly when the input
extension is a jpeg extension. -/
def isReconstructNoise (mode ext : String) : Bool :=
  mode == "noise" || mode == "noise_scale" || (mode == "auto_scale" && isJpegExt ext)

/-- `isReconstructScale` (line 792). The mode "auto_scale" is absent from
this disjunction. -/
def isReconstructScale (mode : String) : Bool :=
  mode == "scale" || mode == "noise_scale"

/-- Mode test guarding construction and loading of the upscale network
`net_scale` in `Waifu2x::init` (line 704); it does include "auto_scale". -/
def scaleNetLoaded (mode : String) : Bool :=
  mode == "scale" || mode == "noise_scale" || mode == "auto_scale"

/-- `scale2 = ceil(log2(scale_ratio))` (line 809). `Int.clog 2` is the
exact ceiling base-2 logarithm on the rationals, agreeing with the
real-valued expression of the source at every rational argument. -/
def scale2 (r : ℚ) : ℤ := Int.clog 2 r

/-- `shrinkRatio = scale_ratio / pow(2.0, scale2)` (line 810). -/
def shrinkFactor (r : ℚ) : ℚ := r / 2 ^ scale2 r

/-- One resized extent of `cv::Size_<int> ns(width * shrinkRatio,
height * shrinkRatio)` (line 877): the C double-to-int conversion
truncates, which is the floor for the nonnegative values arising here. -/
def sizeAfterShrink (s : ℚ) (n : ℕ) : ℕ := (⌊(n : ℚ) * s⌋).toNat

/-- Observable outcome of one `Waifu2x::waifu2x` run. `polls` records the
numbers of reconstruction passes completed at each consultation of the
cancellation probe; `upscalePasses` counts upscale reconstructions started
(a failing pass counts); `resizeApplied` tells whether the final
INTER_LINEAR resize at line 879 ran. -/
structure RunResult where
  result : EWaifu2xError
  denoisePasses : ℕ
  upscalePasses : ℕ
  polls : List ℕ
  resizeApplied : Bool
  outputWritten : Bool
  finalWidth : ℕ
  finalHeight : ℕ
deriving DecidableEq, Repr

/-- `Waifu2x::waifu2x` (lines 768-891), instrumented. The cancellation
probe `cancel` is modelled as a function of the number of reconstruction
passes completed so far (the probe of the source takes no arguments; its
value over time is what matters). `noiseFails` / `scaleFails i` model an
engine failure inside the denoise pass / the i-th upscale pass; decode,
color conversion and encode are external collaborators and succeed here.
Control flow of the source: an engine failure returns its error code at
once (lines 799-800, 820-821); the probe is consulted after the denoise
block (line 806) and again only after the whole upscale loop (line 828);
the final resize runs exactly when the truncated target size differs from
the current size (line 878); the output is written last (line 885). -/
def waifu2xRun (mode ext : String) (r : ℚ) (w h : ℕ) (cancel : ℕ → Bool)
    (noiseFails : Bool) (scaleFails : ℕ → Bool) : RunResult :=
  if isReconstructNoise mode ext && noiseFails then
    ⟨.FailedProcessCaffe, 1, 0, [], false, false, w, h⟩
  else
    let t1 : ℕ := if isReconstructNoise mode ext then 1 else 0
    if cancel t1 then
      ⟨.Cancel, t1, 0, [t1], false, false, w, h⟩
    else
      let n : ℕ := if isReconstructScale mode then (scale2 r).toNat else 0
      match (List.range n).find? scaleFails with
      | some i =>
          ⟨.FailedProcessCaffe, t1, i + 1, [t1], false, false,
            w * 2 ^ (i + 1), h * 2 ^ (i + 1)⟩
      | none =>
          let w2 := w * 2 ^ n
          let h2 := h * 2 ^ n
          let t2 := t1 + n
          if cancel t2 then
            ⟨.Cancel, t1, n, [t1, t2], false, false, w2, h2⟩
          else
            let nsw := sizeAfterShrink (shrinkFactor r) w2
            let nsh := sizeAfterShrink (shrinkFactor r) h2
            let applied : Bool := decide (w2 ≠ nsw ∨ h2 ≠ nsh)
            ⟨.OK, t1, n, [t1, t2], applied, true,
              if applied then nsw else w2, if applied then nsh else h2⟩

/-- A search with an always-false predicate finds nothing. -/
lemma find?_always_false (l : List ℕ) : l.find? (fun _ => false) = none := by
  induction l with
  | nil => rfl
  | cons a l ih => simp [List.find?, ih]

lemma natClog_two_two : Nat.clog 2 2 = 1 := by
  have h1 : Nat.clog 2 2 ≤ 1 := (Nat.le_pow_iff_clog_le (by norm_num)).mp (by norm_num)
  have h2 : 0 < Nat.clog 2 2 := (Nat.pow_lt_iff_lt_clog (by norm_num)).mp (by norm_num)
  omega

lemma natClog_two_three : Nat.clog 2 3 = 2 := by
  have h1 : Nat.clog 2 3 ≤ 2 := (Nat.le_pow_iff_clog_le (by norm_num)).mp (by norm_num)
  have h2 : 1 < Nat.clog 2 3 := (Nat.pow_lt_iff_lt_clog (by norm_num)).mp (by norm_num)
  omega

lemma natClog_two_four : Nat.clog 2 4 = 2 := by
  have h1 : Nat.clog 2 4 ≤ 2 := (Nat.le_pow_iff_clog_le (by norm_num)).mp (by norm_num)
  have h2 : 1 < Nat.clog 2 4 := (Nat.pow_lt_iff_lt_clog (by norm_num)).mp (by norm_num)
  omega

lemma scale2_one : scale2 1 = 0 := by
  unfold scale2; exact Int.clog_one_right 2

lemma scale2_two : scale2 2 = 1 := by
  unfold scale2
  rw [show (2:ℚ) = ((2:ℕ):ℚ) by norm_num, Int.clog_natCast, natClog_two_two]
  norm_num

lemma scale2_three : scale2 3 = 2 := by
  unfold scale2
  rw [show (3:ℚ) = ((3:ℕ):ℚ) by norm_num, Int.clog_natCast, natClog_two_three]
  norm_num

lemma scale2_four : scale2 4 = 2 := by
  unfold scale2
  rw [show (4:ℚ) = ((4:ℕ):ℚ) by norm_num, Int.clog_natCast, natClog_two_four]
  norm_num

lemma scale2_half : scale2 (1 / 2) = -1 := by
  unfold scale2
  rw [show ((1:ℚ)/2) = ((2:ℚ))⁻¹ by norm_num, Int.clog_inv,
    show ((2:ℚ)) = ((2:ℕ):ℚ) by norm_num, Int.log_natCast]
  have h1 : Nat.log 2 2 = 1 := by rw [Nat.log_eq_one_iff]; norm_num
  omega

lemma shrinkFactor_one : shrinkFactor 1 = 1 := by
  unfold shrinkFactor; rw [scale2_one]; norm_num

lemma shrinkFactor_two : shrinkFactor 2 = 1 := by
  unfold shrinkFactor; rw [scale2_two]; norm_num

lemma shrinkFactor_three : shrinkFactor 3 = 3 / 4 := by
  unfold shrinkFactor; rw [scale2_three]; norm_num

lemma shrinkFactor_four : shrinkFactor 4 = 1 := by
  unfold shrinkFactor; rw [scale2_four]; norm_num

/-- For a scale ratio of at least one, `scale2` is nonnegative, so the
loop bound and the exact ceiling log agree. -/
lemma scale2_nonneg (r : ℚ) (hr : 1 ≤ r) : 0 ≤ scale2 r := by
  unfold scale2
  rw [Int.clog_of_one_le_right _ hr]
  exact Int.natCast_nonneg _

/-- For a scale ratio of at least one the shrink factor is at most one. -/
lemma shrinkFactor_le_one (r : ℚ) : shrinkFactor r ≤ 1 := by
  unfold shrinkFactor scale2
  have h2 : (0:ℚ) < 2 ^ Int.clog 2 r := zpow_pos (by norm_num) _
  rw [div_le_one h2]
  have h := Int.self_le_zpow_clog (b := 2) (by norm_num) r
  push_cast at h
  exact h

/-- Shrinking by one is the identity on extents. -/
lemma sizeAfterShrink_one (n : ℕ) : sizeAfterShrink 1 n = n := by
  unfold sizeAfterShrink
  rw [mul_one, Int.floor_natCast, Int.toNat_natCast]

/-- Shrinking a positive extent by a factor below one strictly decreases it. -/
lemma sizeAfterShrink_lt (s : ℚ) (n : ℕ) (hs : s < 1) (hn : 0 < n) :
    sizeAfterShrink s n < n := by
  unfold sizeAfterShrink
  have hn2 : (0:ℚ) < n := by exact_mod_cast hn
  have h1 : (n:ℚ) * s < ((n:ℤ):ℚ) := by push_cast; nlinarith
  have h2 : ⌊(n:ℚ) * s⌋ < (n:ℤ) := Int.floor_lt.mpr h1
  omega

/-- C3 counterexample: the claim quantifies over every positive scale
ratio, but for ratio one half (positive, accepted by init) the exact
ceiling log is -1 while the upscale loop performs zero passes, so the pass
count does not equal ceil(log2(ratio)). -/
theorem scale_decomposition_cex :
    (0:ℚ) < 1 / 2 ∧ scale2 (1 / 2) = -1 ∧
    (waifu2xRun "scale" ".png" (1 / 2) 8 8 (fun _ => false) false
      (fun _ => false)).upscalePasses = 0 ∧
    (0 : ℤ) ≠ -1 := by
  refine ⟨by norm_num, scale2_half, ?_, by decide⟩
  have h2 : scale2 ((2:ℚ)⁻¹) = -1 := by
    rw [show ((2:ℚ)⁻¹) = 1 / 2 by norm_num]; exact scale2_half
  simp [waifu2xRun, isReconstructNoise, isReconstructScale, isJpegExt, h2,
    find?_always_false]

/-- C3 (amended): for every run with scaling requested and scale ratio at
least one, the orchestrator performs exactly ceil(log2(ratio)) upscale
passes (for ratios below one the loop degenerates to
max(0, ceil(log2 ratio)) = 0 passes, see the counterexample), followed by
one resize by ratio / 2 ^ ceil(log2 ratio): the resize is skipped exactly
when that factor is one, and otherwise replaces each positive extent `e`
by floor(e * factor); in particular ratio 3 gives 2 passes and factor 3/4,
ratio 2 gives 1 pass and factor 1 (skipped), ratio 1 gives 0 passes and
factor 1 (skipped). -/
theorem scale_decomposition_amended (mode ext : String) (r : ℚ) (w h : ℕ)
    (hm : isReconstructScale mode = true) (hr : 1 ≤ r) (hw : 0 < w) (hh : 0 < h) :
    ((waifu2xRun mode ext r w h (fun _ => false) false (fun _ => false)).upscalePasses
        = (scale2 r).toNat ∧
      ((scale2 r).toNat : ℤ) = scale2 r) ∧
    (shrinkFactor r = 1 →
      (waifu2xRun mode ext r w h (fun _ => false) false (fun _ => false)).resizeApplied
          = false ∧
      (waifu2xRun mode ext r w h (fun _ => false) false (fun _ => false)).finalWidth
          = w * 2 ^ (scale2 r).toNat) ∧
    (shrinkFactor r ≠ 1 →
      (waifu2xRun mode ext r w h (fun _ => false) false (fun _ => false)).resizeApplied
          = true ∧
      (waifu2xRun mode ext r w h (fun _ => false) false (fun _ => false)).finalWidth
          = sizeAfterShrink (shrinkFactor r) (w * 2 ^ (scale2 r).toNat)) ∧
    (scale2 3 = 2 ∧ shrinkFactor 3 = 3 / 4) ∧
    (scale2 2 = 1 ∧ shrinkFactor 2 = 1) ∧
    (scale2 1 = 0 ∧ shrinkFactor 1 = 1) := by
  have hfind : (List.range ((scale2 r).toNat)).find? (fun _ => false) = none :=
    find?_always_false _
  refine ⟨⟨?_, Int.toNat_of_nonneg (scale2_nonneg r hr)⟩, ?_, ?_,
    ⟨scale2_three, shrinkFactor_three⟩, ⟨scale2_two, shrinkFactor_two⟩,
    ⟨scale2_one, shrinkFactor_one⟩⟩
  · simp [waifu2xRun, hm, hfind]
  · intro hsh
    constructor <;> simp [waifu2xRun, hm, hfind, hsh, sizeAfterShrink_one]
  · intro hsh
    have hlt : shrinkFactor r < 1 := lt_of_le_of_ne (shrinkFactor_le_one r) hsh
    have hW2 : 0 < w * 2 ^ (scale2 r).toNat := Nat.mul_pos hw (Nat.pos_pow_of_pos _ (by norm_num))
    have hH2 : 0 < h * 2 ^ (scale2 r).toNat := Nat.mul_pos hh (Nat.pos_pow_of_pos _ (by norm_num))
    have hnw : sizeAfterShrink (shrinkFactor r) (w * 2 ^ (scale2 r).toNat)
        < w * 2 ^ (scale2 r).toNat := sizeAfterShrink_lt _ _ hlt hW2
    have hne : w * 2 ^ (scale2 r).toNat
        ≠ sizeAfterShrink (shrinkFactor r) (w * 2 ^ (scale2 r).toNat) := by omega
    constructor <;> simp [waifu2xRun, hm, hfind, hne]

/-- Witness for the amended C3 theorem at scale ratio 3. -/
theorem scale_decomposition_witness :
    isReconstructScale "scale" = true ∧ (1:ℚ) ≤ 3 ∧ 0 < 4 ∧
    (scale2 3 = 2 ∧ shrinkFactor 3 = 3 / 4) :=
  ⟨by decide, by decide, by decide,
    (scale_decomposition_amended "scale" ".png" 3 4 4 (by decide) (by decide) (by decide)
      (by decide)).2.2.2.1⟩

/-- C4 (code bug in the source): `Waifu2x::init` constructs and loads the
upscale network for mode "auto_scale" (line 704), yet `isReconstructScale`
(line 792) omits "auto_scale", so a run in that mode performs zero upscale
passes - the heuristic disables not only the denoise pass but the whole
upscale loop - while the final shrink by ratio / 2 ^ ceil(log2 ratio) is
still applied: for a jpeg input with scale ratio 3 and extents 8 x 8 the
denoise pass runs, no upscale pass runs, and the output is resized down to
6 x 6. -/
theorem autoScale_no_upscale_code_bug :
    scaleNetLoaded "auto_scale" = true ∧
    isReconstructScale "auto_scale" = false ∧
    isReconstructNoise "auto_scale" ".jpg" = true ∧
    scale2 3 = 2 ∧
    (waifu2xRun "auto_scale" ".jpg" 3 8 8 (fun _ => false) false
      (fun _ => false)).upscalePasses = 0 ∧
    (waifu2xRun "auto_scale" ".jpg" 3 8 8 (fun _ => false) false
      (fun _ => false)).denoisePasses = 1 ∧
    (waifu2xRun "auto_scale" ".jpg" 3 8 8 (fun _ => false) false
      (fun _ => false)).finalWidth = 6 := by
  have hsz : sizeAfterShrink (shrinkFactor 3) 8 = 6 := by
    unfold sizeAfterShrink
    rw [shrinkFactor_three]
    norm_num
    decide
  refine ⟨by decide, by decide, by decide, scale2_three, ?_, ?_, ?_⟩ <;>
    simp [waifu2xRun, isReconstructNoise, isReconstructScale, isJpegExt,
      find?_always_false, hsz]

/-- C5 counterexample: mode "scale" with ratio 4 (two upscale passes), and
a cancellation signal raised as soon as one reconstruction pass has
completed - that is, before the second upscale iteration begins. The claim
says the run then terminates with no further reconstruction pass; in the
source the only polls are before the upscale loop (pass count 0) and after
it (pass count 2), so both upscale passes run, and only then is Cancel
returned (with no output written). -/
theorem cancellation_between_iterations_cex :
    (waifu2xRun "scale" ".png" 4 1 1 (fun t => decide (1 ≤ t)) false
      (fun _ => false)).result = .Cancel ∧
    (waifu2xRun "scale" ".png" 4 1 1 (fun t => decide (1 ≤ t)) false
      (fun _ => false)).upscalePasses = 2 ∧
    (waifu2xRun "scale" ".png" 4 1 1 (fun t => decide (1 ≤ t)) false
      (fun _ => false)).polls = [0, 2] ∧
    (waifu2xRun "scale" ".png" 4 1 1 (fun t => decide (1 ≤ t)) false
      (fun _ => false)).outputWritten = false := by
  refine ⟨?_, ?_, ?_, ?_⟩ <;>
    simp [waifu2xRun, isReconstructNoise, isReconstructScale, isJpegExt, scale2_four,
      find?_always_false]

/-- C5 (amended): with a failure-free engine, the cancellation probe is
consulted exactly twice - once between the denoise block and the upscale
loop (after `t1` completed passes) and once after the entire upscale loop,
before recomposition (after `t2 = t1 + n` completed passes) - never
mid-batch and never between upscale iterations. A cancel observed at the
first poll terminates with Cancel before any upscale pass and writes no
output; a cancel observed at the second poll terminates with Cancel after
all `n` upscale passes and writes no output; if both polls are clear the
run completes, writes the output and returns OK, so a signal arriving
after the second poll has no effect. -/
theorem cancellation_poll_points_amended (mode ext : String) (r : ℚ) (w h : ℕ)
    (cancel : ℕ → Bool) (scaleFails : ℕ → Bool) (t1 n t2 : ℕ)
    (hsf : ∀ i, scaleFails i = false)
    (ht1 : t1 = if isReconstructNoise mode ext then 1 else 0)
    (hn : n = if isReconstructScale mode then (scale2 r).toNat else 0)
    (ht2 : t2 = t1 + n) :
    (cancel t1 = true →
      waifu2xRun mode ext r w h cancel false scaleFails =
        ⟨.Cancel, t1, 0, [t1], false, false, w, h⟩) ∧
    (cancel t1 = false → cancel t2 = true →
      waifu2xRun mode ext r w h cancel false scaleFails =
        ⟨.Cancel, t1, n, [t1, t2], false, false, w * 2 ^ n, h * 2 ^ n⟩) ∧
    (cancel t1 = false → cancel t2 = false →
      (waifu2xRun mode ext r w h cancel false scaleFails).result = .OK ∧
      (waifu2xRun mode ext r w h cancel false scaleFails).outputWritten = true ∧
      (waifu2xRun mode ext r w h cancel false scaleFails).polls = [t1, t2] ∧
      (waifu2xRun mode ext r w h cancel false scaleFails).upscalePasses = n) := by
  subst ht1 hn ht2
  have hfind : ∀ m : ℕ, (List.range m).find? scaleFails = none := by
    intro m
    rw [List.find?_eq_none]
    intro x hx
    simp [hsf x]
  refine ⟨?_, ?_, ?_⟩
  · intro hc
    simp [waifu2xRun, hc]
  · intro hc1 hc2
    simp [waifu2xRun, hc1, hc2, hfind]
  · intro hc1 hc2
    refine ⟨?_, ?_, ?_, ?_⟩ <;> simp [waifu2xRun, hc1, hc2, hfind]

/-- Witness for the amended C5 theorem: mode "scale", ratio 1, no
cancellation; the run completes and returns OK. -/
theorem cancellation_poll_points_witness :
    ((0:ℕ) = if isReconstructNoise "scale" ".png" then 1 else 0) ∧
    ((0:ℕ) = if isReconstructScale "scale" then (scale2 1).toNat else 0) ∧
    ((0:ℕ) = 0 + 0) ∧
    (waifu2xRun "scale" ".png" 1 1 1 (fun _ => false) false (fun _ => false)).result = .OK :=
  ⟨by decide, by simp [isReconstructScale, scale2_one], by decide,
    ((cancellation_poll_points_amended "scale" ".png" 1 1 1 (fun _ => false) (fun _ => false)
      0 0 0 (fun _ => rfl) (by decide) (by simp [isReconstructScale, scale2_one])
      (by decide)).2.2 rfl rfl).1⟩

/-- C7: an engine failure in any batch makes `ReconstructImage` return
FailedProcessCaffe with the input canvas unchanged (no partially stitched
canvas is ever returned), and the orchestrator surfaces that error code to
its caller unchanged, aborts the remaining pipeline and writes no output -
both for a failure in the denoise pass and for one in an upscale pass. -/
theorem engine_failure_aborts :
    (∀ (crop_size batch_size : ℕ) (engine : TileFn → TileFn) (fails : ℕ → Bool) (im : Plane),
      (List.range (numBatches ((im.width / output_size crop_size) *
          (im.height / output_size crop_size)) batch_size)).any fails = true →
      ReconstructImage crop_size batch_size engine fails im = (.FailedProcessCaffe, im)) ∧
    (∀ (mode ext : String) (r : ℚ) (w h : ℕ) (cancel : ℕ → Bool) (scaleFails : ℕ → Bool),
      isReconstructNoise mode ext = true →
      (waifu2xRun mode ext r w h cancel true scaleFails).result = .FailedProcessCaffe ∧
      (waifu2xRun mode ext r w h cancel true scaleFails).outputWritten = false ∧
      (waifu2xRun mode ext r w h cancel true scaleFails).upscalePasses = 0) ∧
    (∀ (mode ext : String) (r : ℚ) (w h : ℕ) (cancel : ℕ → Bool) (scaleFails : ℕ → Bool)
      (i : ℕ),
      cancel (if isReconstructNoise mode ext then 1 else 0) = false →
      isReconstructScale mode = true →
      (List.range (scale2 r).toNat).find? scaleFails = some i →
      (waifu2xRun mode ext r w h cancel false scaleFails).result = .FailedProcessCaffe ∧
      (waifu2xRun mode ext r w h cancel false scaleFails).outputWritten = false) := by
  refine ⟨?_, ?_, ?_⟩
  · intro crop_size batch_size engine fails im h
    simp only [ReconstructImage]
    rw [if_pos h]
  · intro mode ext r w h cancel scaleFails hdn
    refine ⟨?_, ?_, ?_⟩ <;> simp [waifu2xRun, hdn]
  · intro mode ext r w h cancel scaleFails i hc hm hfind
    constructor <;> simp [waifu2xRun, hc, hm, hfind]

/-- Witness for `engine_failure_aborts`: a failing single-batch
reconstruction of a 1 x 1 canvas, and a failing denoise pass. -/
theorem engine_failure_aborts_witness :
    ((List.range (numBatches (((Plane.mk 1 1 fun _ _ => 0).width / output_size 1) *
        ((Plane.mk 1 1 fun _ _ => 0).height / output_size 1)) 1)).any (fun _ => true) = true) ∧
    (ReconstructImage 1 1 (fun t => t) (fun _ => true) (Plane.mk 1 1 fun _ _ => 0)
      = (.FailedProcessCaffe, Plane.mk 1 1 fun _ _ => 0)) ∧
    (isReconstructNoise "noise" ".png" = true) ∧
    ((waifu2xRun "noise" ".png" 2 3 3 (fun _ => false) true (fun _ => false)).result
      = .FailedProcessCaffe) :=
  ⟨by decide,
    engine_failure_aborts.1 1 1 (fun t => t) (fun _ => true) (Plane.mk 1 1 fun _ _ => 0)
      (by decide),
    by decide,
    (engine_failure_aborts.2.1 "noise" ".png" 2 3 3 (fun _ => false) (fun _ => false)
      (by decide)).1⟩

/-- C10: in denoise-only mode with scale ratio 3, no upscale pass runs,
yet the final resize by 3/4 = 3 / 2 ^ ceil(log2 3) is still computed and
applied, shrinking the output below the input resolution. -/
theorem noise_mode_final_shrink (ext : String) (w h : ℕ) (hw : 0 < w) (hh : 0 < h) :
    (waifu2xRun "noise" ext 3 w h (fun _ => false) false (fun _ => false)).result = .OK ∧
    (waifu2xRun "noise" ext 3 w h (fun _ => false) false (fun _ => false)).upscalePasses
      = 0 ∧
    (waifu2xRun "noise" ext 3 w h (fun _ => false) false (fun _ => false)).resizeApplied
      = true ∧
    (waifu2xRun "noise" ext 3 w h (fun _ => false) false (fun _ => false)).finalWidth
      = sizeAfterShrink (3 / 4) w ∧
    (waifu2xRun "noise" ext 3 w h (fun _ => false) false (fun _ => false)).finalWidth < w ∧
    (waifu2xRun "noise" ext 3 w h (fun _ => false) false (fun _ => false)).finalHeight < h := by
  have h34 : (3/4 : ℚ) < 1 := by norm_num
  have hnw : sizeAfterShrink (3/4) w < w := sizeAfterShrink_lt _ _ h34 hw
  have hnh : sizeAfterShrink (3/4) h < h := sizeAfterShrink_lt _ _ h34 hh
  have hnew : w ≠ sizeAfterShrink (3/4) w := by omega
  refine ⟨?_, ?_, ?_, ?_, ?_, ?_⟩ <;>
    simp [waifu2xRun, isReconstructNoise, isReconstructScale, find?_always_false,
      shrinkFactor_three, hnew, hnw, hnh]

/-- Witness for `noise_mode_final_shrink` on an 8 x 8 input: the output
extent drops to 6. -/
theorem noise_mode_final_shrink_witness :
    0 < 8 ∧
    (waifu2xRun "noise" ".png" 3 8 8 (fun _ => false) false (fun _ => false)).finalWidth
      < 8 :=
  ⟨by decide, (noise_mode_final_shrink ".png" 8 8 (by decide) (by decide)).2.2.2.2.1⟩

/-- Per-pixel model of the alpha premultiply of `LoadImage`
(lines 176-183): each color plane is composited over an opaque white
background, `planes[k] = planes[k] * alpha + (1 - alpha)`. -/
def alphaPremulPixel (c a : ℚ) : ℚ := c * a + (1 - a)

/-- Per-pixel model of the alpha unpremultiply step of `Waifu2x::waifu2x`
(lines 860-875): `planes[k] = (planes[k] - 1.0).mul(1.0 / w2) + 1.0` is
applied to every pixel of every color plane, with no branch on the alpha
value; the reciprocal has no defined rational value when alpha is zero,
which the model marks with none (the source hands that division by zero to
the elementwise library divide unguarded). -/
def alphaUnpremulPixel (c a : ℚ) : Option ℚ :=
  if a = 0 then none else some ((c - 1) * (1 / a) + 1)

/-- C6 counterexample: a fully transparent pixel (alpha zero; the
premultiply gave its color planes the white value one) reaches the
unpremultiply division with a zero divisor - the step performs an
unguarded division by zero, so not every plane value is produced without
one. -/
theorem alpha_unpremultiply_cex : alphaUnpremulPixel 1 0 = none := by
  unfold alphaUnpremulPixel
  rw [if_pos rfl]

/-- C6 (amended): the division by the resized alpha is not guarded - at
alpha zero the step divides by zero (see the counterexample); at every
nonzero alpha it produces (color - 1) / alpha + 1, and composed with the
premultiply it restores the original color exactly. -/
theorem alpha_unpremultiply_unguarded_amended (c a : ℚ) (ha : a ≠ 0) :
    alphaUnpremulPixel c a = some ((c - 1) * (1 / a) + 1) ∧
    alphaUnpremulPixel (alphaPremulPixel c a) a = some c := by
  unfold alphaUnpremulPixel alphaPremulPixel
  rw [if_neg ha, if_neg ha]
  refine ⟨rfl, ?_⟩
  congr 1
  field_simp
  ring

/-- Witness for the amended C6 theorem at alpha 2 (the algebra does not
require alpha to lie in the unit interval) and color 3. -/
theorem alpha_unpremultiply_witness :
    ((2:ℚ) ≠ 0) ∧ alphaUnpremulPixel (alphaPremulPixel 3 2) 2 = some 3 :=
  ⟨by decide, (alpha_unpremultiply_unguarded_amended 3 2 (by decide)).2⟩

end Waifu2x
